import Mathlib

set_option maxRecDepth 8000

/-!
Verification of a retrieval-augmented generation (RAG) pipeline.

The development shallowly embeds the core of the pipeline:
Python strings become lists of characters, the chunk table of the
vector store becomes a list of rows with a logical creation clock,
the cosine-distance operator of the store and the embedding model are
parameters (they are external capabilities), and the uuid generator is
a parametric stream of identifiers consumed left to right.
-/

namespace RagSpec

/-! ## Python string primitives (on lists of characters) -/

/-- Whitespace characters stripped by the Python str.strip method
(ASCII fragment, which covers all inputs considered here). -/
def isPySpace (c : Char) : Bool :=
  c = ' ' || c = '\t' || c = '\n' || c = '\x0b' || c = '\x0c' || c = '\r'

/-- Python str.strip: drop whitespace from both ends. -/
def pyStrip (s : List Char) : List Char :=
  List.reverse (List.dropWhile isPySpace (List.reverse (List.dropWhile isPySpace s)))

/-- Effective index of a Python slice bound: negative values count from
the end and everything is clamped into the interval from 0 to the length. -/
def sliceIdx (n : Nat) (i : Int) : Nat :=
  if i < 0 then (i + n).toNat else min i.toNat n

/-- Python slice s[a:b] with unit step. -/
def pySlice (s : List Char) (a b : Int) : List Char :=
  List.drop (sliceIdx s.length a) (List.take (sliceIdx s.length b) s)

/-- Python str.rfind: highest index of the character, or -1 when absent. -/
def pyRfind (s : List Char) (c : Char) : Int :=
  match (List.reverse s).findIdx? (fun x => x == c) with
  | some i => ((s.length - 1 - i : Nat) : Int)
  | none => -1

/-! ## Text chunker (RAGPipeline._chunk_text)

The Python while loop is embedded with explicit fuel since, as proved
below, it does not terminate for every configuration.  The loop state
is the integer start of the current window (an integer, not a natural
number: the Python variable can become negative) and the accumulated
list of chunks. -/

/-- Sentence-boundary break point of the current window: highest index
of a period or newline inside the window. -/
def chunkBreak (text : List Char) (chunkSize : Nat) (start : Int) : Int :=
  max (pyRfind (pySlice text start (start + chunkSize)) '.')
    (pyRfind (pySlice text start (start + chunkSize)) '\n')

/-- Body of one iteration of the while loop of _chunk_text: the chunk
to append (before stripping) and the value of the variable end after
the sentence-boundary adjustment. -/
def chunkStep (text : List Char) (chunkSize : Nat) (start : Int) :
    List Char × Int :=
  if start + (chunkSize : Int) < (text.length : Int) then
    if ((chunkSize / 2 : Nat) : Int) < chunkBreak text chunkSize start then
      (pySlice (pySlice text start (start + chunkSize)) 0
          (chunkBreak text chunkSize start + 1),
        start + chunkBreak text chunkSize start + 1)
    else (pySlice text start (start + chunkSize), start + (chunkSize : Int))
  else (pySlice text start (start + chunkSize), start + (chunkSize : Int))

/-- One-for-one embedding of the while loop of _chunk_text: append the
stripped chunk of the current window and move the start of the window
to end minus overlap.  Returns none when the fuel is exhausted. -/
def chunkLoop (text : List Char) (chunkSize overlap : Nat) :
    Nat → Int → List (List Char) → Option (List (List Char))
  | 0, _, _ => none
  | fuel + 1, start, acc =>
    if start < (text.length : Int) then
      chunkLoop text chunkSize overlap fuel
        ((chunkStep text chunkSize start).2 - (overlap : Int))
        (acc ++ [pyStrip (chunkStep text chunkSize start).1])
    else some acc

/-- Final filter of _chunk_text: drop empty chunks and chunks of at
most 50 characters. -/
def chunkKeep (c : List Char) : Bool :=
  !c.isEmpty && decide (50 < c.length)

/-- RAGPipeline._chunk_text with explicit fuel. -/
def chunkTextFuel (fuel chunkSize overlap : Nat) (text : List Char) :
    Option (List (List Char)) :=
  (chunkLoop text chunkSize overlap fuel 0 []).map (List.filter chunkKeep)

/-- Termination of the chunking loop on a given input: some amount of
fuel suffices to drive it to completion. -/
def chunkTerminates (chunkSize overlap : Nat) (text : List Char) : Prop :=
  ∃ fuel r, chunkTextFuel fuel chunkSize overlap text = some r

/-- Default chunk size from the application settings. -/
def defaultChunkSize : Nat := 500

/-- Default chunk overlap from the application settings. -/
def defaultChunkOverlap : Nat := 50

/-- Chunking with the default settings; fuel one beyond the text length
suffices, as proved below. -/
def chunkText (text : List Char) : List (List Char) :=
  (chunkTextFuel (text.length + 1) defaultChunkSize defaultChunkOverlap text).getD []

/-! ## Data model

A chunk row mirrors one row of the document_chunks table.  The
created_at column is modelled as a logical clock: the store stamps each
inserted row with a strictly increasing tick, which realises the
ordered-by-creation-time contract of the store. -/

/-- Value of a metadata entry (the JSONB map holds strings and the
integer chunk index here). -/
inductive MetaVal where
  | s (v : String)
  | n (v : Nat)
  deriving DecidableEq

/-- Python dict update d[k] = v on an insertion-ordered map: override in
place when the key exists, append otherwise. -/
def dictSet (m : List (String × MetaVal)) (k : String) (v : MetaVal) :
    List (String × MetaVal) :=
  if m.any (fun p => p.1 == k) then
    m.map (fun p => if p.1 == k then (k, v) else p)
  else m ++ [(k, v)]

/-- One row of the document_chunks table. -/
structure ChunkRow where
  id : String
  document_id : String
  content : List Char
  embedding : List ℚ
  metadata : List (String × MetaVal)
  created_at : Nat
  deriving DecidableEq

/-- The table of chunks plus the logical creation clock. -/
structure Store where
  rows : List ChunkRow
  nextTime : Nat
  deriving DecidableEq

/-- A row returned by similarity_search (row columns plus the computed
similarity). -/
structure SearchResult where
  id : String
  document_id : String
  content : List Char
  metadata : List (String × MetaVal)
  created_at : Nat
  similarity : ℚ
  deriving DecidableEq

/-- One entry of the chunks_data list prepared by ingest_document. -/
structure ChunkData where
  content : List Char
  embedding : List ℚ
  metadata : List (String × MetaVal)
  deriving DecidableEq

/-! ## Vector store operations -/

/-- VectorStore.similarity_search: order the rows by cosine distance to
the query embedding (the external distance operator of the store is the
parameter dist), keep the first top_k, and report the similarity of
each as one minus its distance. -/
def similaritySearch (dist : List ℚ → List ℚ → ℚ) (st : Store)
    (qe : List ℚ) (topK : Nat) : List SearchResult :=
  ((st.rows.insertionSort
      (fun a b => dist a.embedding qe ≤ dist b.embedding qe)).take topK).map
    (fun r =>
      { id := r.id, document_id := r.document_id, content := r.content,
        metadata := r.metadata, created_at := r.created_at,
        similarity := 1 - dist r.embedding qe })

/-- VectorStore.delete_by_document_id: remove every row of the document
and report how many rows the DELETE statement touched. -/
def deleteByDocumentId (st : Store) (docId : String) : Store × Nat :=
  ({ rows := st.rows.filter (fun r => !(r.document_id == docId)),
     nextTime := st.nextTime },
   (st.rows.filter (fun r => r.document_id == docId)).length)

/-- VectorStore.get_chunk_count. -/
def chunkCount (st : Store) : Nat := st.rows.length

/-- Projection of a row as returned by get_document_chunks (the SELECT
lists id, content, metadata and created_at). -/
structure DocChunkView where
  id : String
  content : List Char
  metadata : List (String × MetaVal)
  created_at : Nat
  deriving DecidableEq

/-- The rows of one document, in table order: the WHERE clause of
get_document_chunks, before any ordering. -/
def getDocumentRows (st : Store) (docId : String) : List ChunkRow :=
  st.rows.filter (fun r => r.document_id == docId)

/-- Projection of a row onto the columns selected by
get_document_chunks (id, content, metadata, created_at). -/
def rowView (r : ChunkRow) : DocChunkView :=
  { id := r.id, content := r.content, metadata := r.metadata,
    created_at := r.created_at }

/-- Contract of VectorStore.get_document_chunks.  The SELECT returns
the rows of the document ordered by created_at, and SQL leaves the
relative order of rows with equal created_at unspecified (all rows of
one batch insert share the single transaction timestamp).  A result is
admissible when it is the projection of some created_at-sorted
permutation of the rows of the document. -/
def getDocumentChunksAdmissible (st : Store) (docId : String)
    (res : List DocChunkView) : Prop :=
  ∃ rows : List ChunkRow, List.Perm rows (getDocumentRows st docId) ∧
    rows.Sorted (fun a b => a.created_at ≤ b.created_at) ∧
    res = rows.map rowView

/-- Loop body of batch_add_chunks: one INSERT per chunk, drawing one
fresh id per chunk from the uuid stream at position c.  Every row is
stamped with the same tick t: the created_at column defaults to
CURRENT_TIMESTAMP, which is frozen for the whole transaction, so all
rows of one batch share one timestamp.  Returns the ids and the rows
in insertion order. -/
def batchInsert (gen : Nat → String) (docId : String) (t : Nat) :
    List ChunkData → Nat → List String × List ChunkRow
  | [], _ => ([], [])
  | d :: ds, c =>
    let r := batchInsert gen docId t ds (c + 1)
    (gen c :: r.1,
     { id := gen c, document_id := docId, content := d.content,
       embedding := d.embedding, metadata := d.metadata,
       created_at := t } :: r.2)

/-- VectorStore.batch_add_chunks.  The uuid generator gen is a
parametric stream of identifiers and c is the position of the next
fresh one.  All inserts run in one transaction: every row carries the
transaction timestamp (the current clock tick) and the clock advances
once at commit.  Returns the list of new chunk ids, the new store and
the next free position of the uuid stream. -/
def batchAddChunks (gen : Nat → String) (docId : String)
    (ds : List ChunkData) (st : Store) (c : Nat) :
    List String × Store × Nat :=
  ((batchInsert gen docId st.nextTime ds c).1,
   { rows := st.rows ++ (batchInsert gen docId st.nextTime ds c).2,
     nextTime := st.nextTime + 1 },
   c + ds.length)

/-! ## Retriever -/

/-- Retriever.retrieve: embed the query, run the similarity search and
drop every result whose similarity is at most 0.1. -/
def retrieve (dist : List ℚ → List ℚ → ℚ) (embed : String → List ℚ)
    (st : Store) (q : String) (topK : Nat) : List SearchResult :=
  (similaritySearch dist st (embed q) topK).filter
    (fun r => decide ((1 : ℚ) / 10 < r.similarity))

/-! ## RAG pipeline -/

/-- Fallback answer used when retrieval comes back empty. -/
def fallbackMessage : String :=
  "I couldn\x27t find any relevant information to answer your question."

/-- Python round to three decimal places (round-half-to-even on the
scaled value). -/
def roundHalfEven (q : ℚ) : ℤ :=
  if q - ⌊q⌋ < 1 / 2 then ⌊q⌋
  else if 1 / 2 < q - ⌊q⌋ then ⌊q⌋ + 1
  else if Even ⌊q⌋ then ⌊q⌋ else ⌊q⌋ + 1

/-- Rounding of a similarity to three decimal places. -/
def round3 (q : ℚ) : ℚ := (roundHalfEven (q * 1000) : ℚ) / 1000

/-- One formatted source of a query answer. -/
structure Source where
  content : List Char
  metadata : List (String × MetaVal)
  similarity : ℚ
  deriving DecidableEq

/-- Value returned by RAGPipeline.query. -/
structure QueryResult where
  answer : String
  sources : List Source
  query : String
  deriving DecidableEq

/-- RAGPipeline.query: retrieve, short-circuit to the fallback when
nothing was retrieved, otherwise generate and format the sources
(content cut to 200 characters plus an ellipsis when longer than 200,
similarity rounded to three decimals). -/
def ragQuery (dist : List ℚ → List ℚ → ℚ) (embed : String → List ℚ)
    (generate : String → List SearchResult → String) (st : Store)
    (q : String) (topK : Nat) : QueryResult :=
  let chunks := retrieve dist embed st q topK
  if chunks.isEmpty then
    { answer := fallbackMessage, sources := [], query := q }
  else
    { answer := generate q chunks,
      sources := chunks.map (fun ch =>
        { content :=
            if 200 < ch.content.length then
              ch.content.take 200 ++ ('.' :: '.' :: '.' :: [])
            else ch.content,
          metadata := ch.metadata,
          similarity := round3 ch.similarity }),
      query := q }

/-- RAGPipeline.delete_document: the try block reports success of the
store operation, an exception is reported as false; the outcome of the
store call is the argument. -/
def deleteDocument (res : Except Unit (Store × Nat)) : Bool :=
  match res with
  | .ok _ => true
  | .error _ => false

/-- Metadata attached to the chunk at the given index: the caller map
merged with the document id and the zero-based chunk index. -/
def ingestChunkMeta (metadata : List (String × MetaVal)) (docId : String)
    (i : Nat) : List (String × MetaVal) :=
  dictSet (dictSet metadata "document_id" (MetaVal.s docId)) "chunk_index" (MetaVal.n i)

/-- The chunks_data list prepared by ingest_document, starting at chunk
index i: each chunk with its embedding and merged metadata. -/
def ingestChunksData (embed : List Char → List ℚ) (docId : String)
    (metadata : List (String × MetaVal)) :
    List (List Char) → Nat → List ChunkData
  | [], _ => []
  | chunk :: rest, i =>
    { content := chunk, embedding := embed chunk,
      metadata := ingestChunkMeta metadata docId i } ::
    ingestChunksData embed docId metadata rest (i + 1)

/-- RAGPipeline.ingest_document: draw a fresh document id from the uuid
stream, chunk the content with the default settings, embed every chunk,
and batch-insert.  The conditional vector index rebuild touches no row,
so it does not appear in the row model.  Returns the document id, the
new store and the next free uuid position. -/
def ingestDocument (embed : List Char → List ℚ) (gen : Nat → String)
    (st : Store) (c : Nat) (content : List Char)
    (metadata : List (String × MetaVal)) : String × Store × Nat :=
  let docId := gen c
  let ds := ingestChunksData embed docId metadata (chunkText content) 0
  let r := batchAddChunks gen docId ds st (c + 1)
  (docId, r.2)

/-! ## Corpus seeder -/

/-- One sample document of the seed corpus (the corpus data file is not
part of the sources considered here, so the list of documents is a
parameter). -/
structure SeedDoc where
  title : String
  content : List Char
  metadata : List (String × MetaVal)
  deriving DecidableEq

/-- Metadata passed to ingest_document for one sample document: its
title merged with its own metadata map. -/
def seedDocMeta (d : SeedDoc) : List (String × MetaVal) :=
  d.metadata.foldl (fun m p => dictSet m p.1 p.2) [("title", MetaVal.s d.title)]

/-- seed_corpus under sequential execution: the advisory try-lock is
free, hence acquired, and released on exit without touching the table;
every document is ingested and counted. -/
def seedCorpus (embed : List Char → List ℚ) (gen : Nat → String) :
    List SeedDoc → Store → Nat → Nat × Store × Nat
  | [], st, c => (0, st, c)
  | d :: ds, st, c =>
    let r1 := ingestDocument embed gen st c d.content (seedDocMeta d)
    let r := seedCorpus embed gen ds r1.2.1 r1.2.2
    (r.1 + 1, r.2)

/-- seed_corpus_if_empty: seed only when the total chunk count is
zero. -/
def seedCorpusIfEmpty (embed : List Char → List ℚ) (gen : Nat → String)
    (docs : List SeedDoc) (st : Store) (c : Nat) : Nat × Store × Nat :=
  if chunkCount st == 0 then seedCorpus embed gen docs st c
  else (0, st, c)

/-! ## Expected shapes of insertions

Recursive descriptions of what a batch insertion and an ingestion
produce, used to state and prove the claims about them. -/

/-- Identifiers drawn from the uuid stream: positions c through
c plus n minus one, in order. -/
def expectedIds (gen : Nat → String) : Nat → Nat → List String
  | _, 0 => []
  | c, n + 1 => gen c :: expectedIds gen (c + 1) n

/-- Rows created by a batch insertion of chunk data: consecutive ids
from stream position c, and the shared transaction timestamp t on
every row. -/
def expectedRows (gen : Nat → String) (docId : String) :
    List ChunkData → Nat → Nat → List ChunkRow
  | [], _, _ => []
  | d :: ds, c, t =>
    { id := gen c, document_id := docId, content := d.content,
      embedding := d.embedding, metadata := d.metadata, created_at := t } ::
    expectedRows gen docId ds (c + 1) t

/-- The views of the chunks produced for one ingested document, in
chunker order: contents in order, chunk indices ascending from i,
consecutive ids from stream position c, and the shared transaction
timestamp t on every chunk. -/
def expectedViews (gen : Nat → String) (docId : String)
    (metadata : List (String × MetaVal)) :
    List (List Char) → Nat → Nat → Nat → List DocChunkView
  | [], _, _, _ => []
  | chunk :: rest, i, c, t =>
    { id := gen c, content := chunk,
      metadata := ingestChunkMeta metadata docId i, created_at := t } ::
    expectedViews gen docId metadata rest (i + 1) (c + 1) t

/-! ## Concrete fixtures used by witnesses and counterexamples -/

/-- Distance operator that declares every pair of vectors at distance
zero. -/
def constDist : List ℚ → List ℚ → ℚ := fun _ _ => 0

/-- Embedding provider returning a fixed vector, for queries. -/
def constEmbed : String → List ℚ := fun _ => [1]

/-- Embedding provider returning a fixed vector, for chunks. -/
def constEmbedL : List Char → List ℚ := fun _ => [1]

/-- Generator returning a fixed answer. -/
def constGen : String → List SearchResult → String := fun _ _ => "answer"

/-- Injective stream of identifiers standing in for uuid4. -/
def uuidStream : Nat → String := fun n => String.mk (List.replicate n 'x')

/-- A store with no chunks. -/
def emptyStore : Store := { rows := [], nextTime := 0 }

/-- A single stored row with sixty characters of content. -/
def sampleRow : ChunkRow :=
  { id := "cid", document_id := "doc", content := List.replicate 60 'a',
    embedding := [1], metadata := [], created_at := 0 }

/-- A store holding the sample row. -/
def sampleStore : Store := { rows := [sampleRow], nextTime := 1 }

/-- A stored row whose content is 201 characters long. -/
def longRow : ChunkRow :=
  { id := "cid2", document_id := "doc2", content := List.replicate 201 'a',
    embedding := [1], metadata := [], created_at := 0 }

/-- A store holding the 201-character row. -/
def longStore : Store := { rows := [longRow], nextTime := 1 }

/-- A document long enough to chunk into two pieces with the default
settings: a 500-character window and a 150-character remainder. -/
def longDoc : List Char := List.replicate 600 'a'

/-- The store after ingesting longDoc into the empty store. -/
def longDocStore : Store :=
  (ingestDocument constEmbedL uuidStream emptyStore 0 longDoc []).2.1

/-- The id under which longDoc was ingested. -/
def longDocId : String :=
  (ingestDocument constEmbedL uuidStream emptyStore 0 longDoc []).1

/-- The first chunk row of longDoc; both rows of the batch carry the
same transaction timestamp. -/
def longDocRow1 : ChunkRow :=
  { id := uuidStream 1, document_id := uuidStream 0,
    content := List.replicate 500 'a', embedding := [1],
    metadata := ingestChunkMeta [] (uuidStream 0) 0, created_at := 0 }

/-- The second chunk row of longDoc. -/
def longDocRow2 : ChunkRow :=
  { id := uuidStream 2, document_id := uuidStream 0,
    content := List.replicate 150 'a', embedding := [1],
    metadata := ingestChunkMeta [] (uuidStream 0) 1, created_at := 0 }

/-- A document chunking into a single piece. -/
def smallDoc : List Char := List.replicate 60 'a'

/-- The store after ingesting smallDoc into the empty store. -/
def smallDocStore : Store :=
  (ingestDocument constEmbedL uuidStream emptyStore 0 smallDoc []).2.1

/-- The id under which smallDoc was ingested. -/
def smallDocId : String :=
  (ingestDocument constEmbedL uuidStream emptyStore 0 smallDoc []).1

/-- The single chunk row of smallDoc. -/
def smallDocRow : ChunkRow :=
  { id := uuidStream 1, document_id := uuidStream 0,
    content := List.replicate 60 'a', embedding := [1],
    metadata := ingestChunkMeta [] (uuidStream 0) 0, created_at := 0 }

/-- Text on which the chunking loop cycles for chunk size 10 and
overlap 9: the early period pulls the window end back past the next
start. -/
def badText : List Char := "aaaaaa.aaaaaaaaaaaa".toList

/-! ## C1: retrieval never returns a chunk at or below the similarity
threshold -/

/-- C1: every chunk returned by Retriever.retrieve has similarity
strictly greater than 0.1, equivalently retrieve never returns a chunk
whose similarity is at most 0.1, for every distance operator, embedding
provider, store, query and top_k. -/
theorem C1_retrieve_above_threshold (dist : List ℚ → List ℚ → ℚ)
    (embed : String → List ℚ) (st : Store) (q : String) (topK : Nat) :
    ∀ c ∈ retrieve dist embed st q topK,
      1 / 10 < c.similarity ∧ ¬ c.similarity ≤ 1 / 10 := by
  intro c hc
  unfold retrieve at hc
  have h : (1 : ℚ) / 10 < c.similarity :=
    of_decide_eq_true (List.mem_filter.mp hc).2
  exact ⟨h, not_le.mpr h⟩

/-- The search result produced for the sample row at distance zero. -/
def sampleResult : SearchResult :=
  { id := "cid", document_id := "doc", content := List.replicate 60 'a',
    metadata := [], created_at := 0, similarity := 1 }

/-- Evaluation of retrieve on the sample store under the constant
distance operator. -/
theorem retrieve_sampleStore :
    retrieve constDist constEmbed sampleStore "q" 5 = [sampleResult] := by
  have h0 : retrieve constDist constEmbed sampleStore "q" 5 =
      List.filter (fun r => decide ((1 : ℚ) / 10 < r.similarity))
        [{ id := "cid", document_id := "doc",
           content := List.replicate 60 'a', metadata := [],
           created_at := 0,
           similarity := 1 - constDist sampleRow.embedding (constEmbed "q") }] := rfl
  have h1 : ((1 : ℚ) / 10 < 1 - constDist sampleRow.embedding (constEmbed "q")) := by
    norm_num [constDist]
  rw [h0, List.filter_cons, if_pos (by simpa using h1)]
  simp only [List.filter_nil, sampleResult, SearchResult.mk.injEq]
  norm_num [constDist]

/-- Witness for C1: a concrete store on which retrieve returns a chunk
of similarity one. -/
theorem C1_witness :
    1 / 10 < sampleResult.similarity ∧ ¬ sampleResult.similarity ≤ 1 / 10 :=
  C1_retrieve_above_threshold constDist constEmbed sampleStore "q" 5
    sampleResult (by rw [retrieve_sampleStore]; exact List.mem_singleton.mpr rfl)

/-! ## C2: empty retrieval short-circuits to the fallback answer -/

/-- C2: when retrieval yields zero chunks, RAGPipeline.query returns
exactly the fallback answer with empty sources and the original query,
and this holds uniformly in the generator, which is therefore never
invoked. -/
theorem C2_query_empty_fallback (dist : List ℚ → List ℚ → ℚ)
    (embed : String → List ℚ) (st : Store) (q : String) (topK : Nat)
    (h : retrieve dist embed st q topK = []) :
    ∀ generate, ragQuery dist embed generate st q topK =
      { answer := fallbackMessage, sources := [], query := q } := by
  intro generate
  unfold ragQuery
  rw [h]
  rfl

/-- Witness for C2: querying an empty store returns the fallback
answer. -/
theorem C2_witness :
    ragQuery constDist constEmbed constGen emptyStore "unrelated question" 5 =
      { answer := fallbackMessage, sources := [], query := "unrelated question" } :=
  C2_query_empty_fallback constDist constEmbed emptyStore
    "unrelated question" 5 rfl constGen

/-! ## C4: delete_document return value -/

/-- C4 counterexample: deleting a document with no stored chunks
removes zero rows, yet delete_document reports true; the claim that
true is returned only when at least one chunk was deleted is false. -/
theorem C4_counterexample :
    deleteDocument (Except.ok (deleteByDocumentId emptyStore "missing")) = true ∧
      (deleteByDocumentId emptyStore "missing").2 = 0 :=
  ⟨rfl, rfl⟩

/-- C4 amended: delete_document removes every chunk of the given
document and returns true exactly when the store operation succeeded,
regardless of how many chunks were deleted; a store failure is
reported as false, never raised. -/
theorem C4_delete_document (st : Store) (docId : String) :
    (∀ r ∈ (deleteByDocumentId st docId).1.rows, r.document_id ≠ docId) ∧
    (deleteByDocumentId st docId).2 +
        (deleteByDocumentId st docId).1.rows.length = st.rows.length ∧
    (∀ res : Except Unit (Store × Nat),
        deleteDocument res = true ↔ res.isOk = true) ∧
    deleteDocument (Except.error ()) = false := by
  refine ⟨?_, ?_, ?_, rfl⟩
  · intro r hr
    have h := List.of_mem_filter hr
    simp only [Bool.not_eq_true', beq_eq_false_iff_ne, ne_eq] at h
    exact h
  · have h := List.length_eq_length_filter_add
      (l := st.rows) (fun r => r.document_id == docId)
    simp only [deleteByDocumentId]
    omega
  · intro res
    cases res <;> simp [deleteDocument, Except.isOk, Except.toBool]

/-- Witness for C4 amended, at a concrete store and document id. -/
theorem C4_witness :
    (deleteByDocumentId sampleStore "doc").2 +
        (deleteByDocumentId sampleStore "doc").1.rows.length =
      sampleStore.rows.length :=
  (C4_delete_document sampleStore "doc").2.1

/-! ## C5: similarity search contract -/

/-- C5: similarity_search returns at most top_k results, every result
carries similarity equal to one minus the cosine distance between a
stored embedding and the query embedding, and the similarities are
monotonically non-increasing along the returned sequence. -/
theorem C5_similarity_search (dist : List ℚ → List ℚ → ℚ) (st : Store)
    (qe : List ℚ) (topK : Nat) :
    (similaritySearch dist st qe topK).length ≤ topK ∧
    (∀ res ∈ similaritySearch dist st qe topK,
       ∃ row ∈ st.rows, res.similarity = 1 - dist row.embedding qe) ∧
    ((similaritySearch dist st qe topK).map SearchResult.similarity).Sorted
      (fun a b => b ≤ a) := by
  haveI : IsTotal ChunkRow
      (fun a b => dist a.embedding qe ≤ dist b.embedding qe) :=
    ⟨fun a b => le_total _ _⟩
  haveI : IsTrans ChunkRow
      (fun a b => dist a.embedding qe ≤ dist b.embedding qe) :=
    ⟨fun _ _ _ hab hbc => le_trans hab hbc⟩
  refine ⟨?_, ?_, ?_⟩
  · simp only [similaritySearch, List.length_map, List.length_take]
    exact min_le_left _ _
  · intro res hres
    simp only [similaritySearch, List.mem_map] at hres
    obtain ⟨row, hrow, rfl⟩ := hres
    have hmem : row ∈ st.rows :=
      (List.perm_insertionSort _ _).subset (List.mem_of_mem_take hrow)
    exact ⟨row, hmem, rfl⟩
  · have hs := List.sorted_insertionSort
      (fun a b => dist a.embedding qe ≤ dist b.embedding qe) st.rows
    have ht : ((st.rows.insertionSort
        (fun a b => dist a.embedding qe ≤ dist b.embedding qe)).take
          topK).Pairwise
        (fun a b => dist a.embedding qe ≤ dist b.embedding qe) :=
      hs.sublist (List.take_sublist _ _)
    simp only [similaritySearch, List.Sorted, List.pairwise_map]
    exact ht.imp (fun hab => by simpa using sub_le_sub_left hab 1)

/-- Witness for C5 at a concrete store and query embedding. -/
theorem C5_witness :
    (similaritySearch constDist sampleStore [1] 2).length ≤ 2 :=
  (C5_similarity_search constDist sampleStore [1] 2).1

/-! ## C3: termination of the chunker -/

/-- When the overlap is at most half the chunk size, every loop
iteration advances the window start by at least one character. -/
theorem chunkStep_progress (text : List Char) (cs ov : Nat) (h1 : 0 < cs)
    (h2 : 2 * ov ≤ cs) (start : Int) :
    start + 1 ≤ (chunkStep text cs start).2 - (ov : Int) := by
  unfold chunkStep
  split
  · split
    · rename_i hbp
      dsimp only
      omega
    · dsimp only
      omega
  · dsimp only
    omega

/-- With enough fuel (one unit beyond the distance from the window
start to the end of the text) the loop completes. -/
theorem chunkLoop_isSome (text : List Char) (cs ov : Nat) (h1 : 0 < cs)
    (h2 : 2 * ov ≤ cs) :
    ∀ (fuel : Nat) (s : Int) (acc : List (List Char)),
      (text.length : Int) - s < (fuel : Int) → 0 < fuel →
      (chunkLoop text cs ov fuel s acc).isSome = true := by
  intro fuel
  induction fuel with
  | zero => intro s acc _ h0; exact absurd h0 (by omega)
  | succ k ih =>
    intro s acc hlt _
    simp only [chunkLoop]
    by_cases hs : s < (text.length : Int)
    · rw [if_pos hs]
      have hp := chunkStep_progress text cs ov h1 h2 s
      exact ih _ _ (by omega) (by omega)
    · rw [if_neg hs]
      rfl

/-- The window start cycles through 0, -2, -1 forever on badText with
chunk size 10 and overlap 9, so the loop consumes any amount of
fuel without terminating. -/
theorem chunkLoop_badText_cycle :
    ∀ (fuel : Nat) (acc : List (List Char)),
      chunkLoop badText 10 9 fuel 0 acc = none ∧
      chunkLoop badText 10 9 fuel (-2) acc = none ∧
      chunkLoop badText 10 9 fuel (-1) acc = none := by
  intro fuel
  induction fuel with
  | zero => exact fun _ => ⟨rfl, rfl, rfl⟩
  | succ k ih =>
    intro acc
    have e0 : chunkLoop badText 10 9 (k + 1) 0 acc =
        chunkLoop badText 10 9 k (-2)
          (acc ++ [pyStrip (chunkStep badText 10 0).1]) := rfl
    have e1 : chunkLoop badText 10 9 (k + 1) (-2) acc =
        chunkLoop badText 10 9 k (-1)
          (acc ++ [pyStrip (chunkStep badText 10 (-2)).1]) := rfl
    have e2 : chunkLoop badText 10 9 (k + 1) (-1) acc =
        chunkLoop badText 10 9 k 0
          (acc ++ [pyStrip (chunkStep badText 10 (-1)).1]) := rfl
    exact ⟨by rw [e0]; exact (ih _).2.1,
           by rw [e1]; exact (ih _).2.2,
           by rw [e2]; exact (ih _).1⟩

/-- C3 counterexample: for chunk size 10 and overlap 9 the overlap is
smaller than the chunk size, yet the chunking loop never terminates on
a 19-character text whose period sits right after the midpoint of the
first window: the sentence-boundary adjustment moves the next start
backwards and the loop cycles. -/
theorem C3_counterexample : 9 < 10 ∧ ¬ chunkTerminates 10 9 badText := by
  refine ⟨by norm_num, ?_⟩
  rintro ⟨fuel, r, h⟩
  unfold chunkTextFuel at h
  rw [(chunkLoop_badText_cycle fuel []).1] at h
  simp at h

/-- C3 amended: chunking terminates on every text whenever the overlap
is at most half the chunk size (the actual configuration, 500 and 50,
satisfies this); the loop then advances by at least one character per
iteration, and length-plus-one units of fuel suffice. -/
theorem C3_chunk_termination (cs ov : Nat) (text : List Char)
    (h1 : 0 < cs) (h2 : 2 * ov ≤ cs) : chunkTerminates cs ov text := by
  have h := chunkLoop_isSome text cs ov h1 h2 (text.length + 1) 0 []
    (by push_cast; omega) (by omega)
  rw [Option.isSome_iff_exists] at h
  obtain ⟨raw, hraw⟩ := h
  exact ⟨text.length + 1, raw.filter chunkKeep, by
    unfold chunkTextFuel; rw [hraw]; rfl⟩

/-- Witness for C3 amended, at the default settings on a concrete
text. -/
theorem C3_witness : chunkTerminates 500 50 (List.replicate 60 'a') :=
  C3_chunk_termination 500 50 (List.replicate 60 'a') (by norm_num) (by norm_num)

/-! ## C6: shape of the chunks -/

/-- A list whose head (if any) fails the predicate is unchanged by
dropWhile. -/
theorem dropWhile_eq_self {α : Type*} (p : α → Bool) (l : List α)
    (h : ∀ x, l.head? = some x → p x = false) :
    List.dropWhile p l = l := by
  cases l with
  | nil => rfl
  | cons a as =>
    have ha := h a rfl
    rw [List.dropWhile_cons, ha]
    simp

/-- dropWhile is idempotent. -/
theorem dropWhile_dropWhile {α : Type*} (p : α → Bool) (l : List α) :
    List.dropWhile p (List.dropWhile p l) = List.dropWhile p l := by
  induction l with
  | nil => rfl
  | cons x xs ih =>
    rw [List.dropWhile_cons]
    split
    · exact ih
    · rename_i hx
      rw [List.dropWhile_cons, if_neg hx]

/-- The head of a dropWhile result fails the predicate. -/
theorem head?_dropWhile_false {α : Type*} (p : α → Bool) (l : List α) :
    ∀ x, (List.dropWhile p l).head? = some x → p x = false := by
  induction l with
  | nil => intro x h; simp at h
  | cons a as ih =>
    intro x h
    rw [List.dropWhile_cons] at h
    cases hpa : p a
    · rw [hpa] at h
      simp only [Bool.false_eq_true, if_false, List.head?_cons,
        Option.some.injEq] at h
      rw [← h]
      exact hpa
    · rw [hpa] at h
      simp only [if_true] at h
      exact ih x h

/-- dropWhile either empties the list or preserves its last element. -/
theorem getLast?_dropWhile {α : Type*} (p : α → Bool) (l : List α) :
    List.dropWhile p l = [] ∨
      (List.dropWhile p l).getLast? = l.getLast? := by
  induction l with
  | nil => exact Or.inl rfl
  | cons a as ih =>
    cases hpa : p a
    · right
      rw [List.dropWhile_cons, hpa]
      simp
    · rcases ih with h0 | h1
      · left
        rw [List.dropWhile_cons, hpa]
        simpa using h0
      · by_cases has : List.dropWhile p as = []
        · left
          rw [List.dropWhile_cons, hpa]
          simpa using has
        · right
          have hasne : as ≠ [] := by
            intro he
            rw [he] at has
            exact has rfl
          rw [List.dropWhile_cons, hpa]
          simp only [if_true]
          rw [h1]
          obtain ⟨b, bs, rfl⟩ := List.exists_cons_of_ne_nil hasne
          exact (List.getLast?_cons_cons ..).symm

/-- Python strip is idempotent. -/
theorem pyStrip_idem (s : List Char) : pyStrip (pyStrip s) = pyStrip s := by
  have hd : List.dropWhile isPySpace (pyStrip s) = pyStrip s := by
    apply dropWhile_eq_self
    intro x hx
    unfold pyStrip at hx
    rw [List.head?_reverse] at hx
    rcases getLast?_dropWhile isPySpace (List.dropWhile isPySpace s).reverse
      with h0 | h1
    · rw [h0] at hx
      simp at hx
    · rw [h1, List.getLast?_reverse] at hx
      exact head?_dropWhile_false isPySpace s x hx
  show List.reverse (List.dropWhile isPySpace
      (List.reverse (List.dropWhile isPySpace (pyStrip s)))) = pyStrip s
  rw [hd]
  unfold pyStrip
  rw [List.reverse_reverse, dropWhile_dropWhile]

/-- Every chunk the loop accumulates beyond its initial accumulator is
the strip of some window. -/
theorem chunkLoop_mem_strip (text : List Char) (cs ov : Nat) :
    ∀ (fuel : Nat) (s : Int) (acc r : List (List Char)),
      chunkLoop text cs ov fuel s acc = some r →
      ∀ c ∈ r, c ∈ acc ∨ ∃ d, c = pyStrip d := by
  intro fuel
  induction fuel with
  | zero => intro s acc r h; simp [chunkLoop] at h
  | succ k ih =>
    intro s acc r h c hc
    simp only [chunkLoop] at h
    by_cases hs : s < (text.length : Int)
    · rw [if_pos hs] at h
      rcases ih _ _ _ h c hc with hmem | hex
      · rcases List.mem_append.mp hmem with h1 | h2
        · exact Or.inl h1
        · exact Or.inr ⟨_, List.mem_singleton.mp h2⟩
      · exact Or.inr hex
    · rw [if_neg hs] at h
      obtain rfl : acc = r := by simpa using h
      exact Or.inl hc

/-- C6: whenever the chunker completes, every output chunk is stripped
(a fixed point of strip), non-empty and strictly longer than 50
characters, and the empty input yields the empty output. -/
theorem C6_chunk_output (fuel cs ov : Nat) (text : List Char)
    (r : List (List Char)) (h : chunkTextFuel fuel cs ov text = some r) :
    (∀ c ∈ r, pyStrip c = c ∧ c ≠ [] ∧ 50 < c.length) ∧
    (text = [] → r = []) := by
  obtain ⟨raw, hraw, rfl⟩ :
      ∃ raw, chunkLoop text cs ov fuel 0 [] = some raw ∧
        r = raw.filter chunkKeep := by
    unfold chunkTextFuel at h
    cases hl : chunkLoop text cs ov fuel 0 [] with
    | none => rw [hl] at h; simp at h
    | some raw =>
      rw [hl] at h
      simp only [Option.map_some', Option.some.injEq] at h
      exact ⟨raw, rfl, h.symm⟩
  constructor
  · intro c hc
    have hk := (List.mem_filter.mp hc).2
    unfold chunkKeep at hk
    rw [Bool.and_eq_true] at hk
    obtain ⟨hne, hlen⟩ := hk
    refine ⟨?_, ?_, of_decide_eq_true hlen⟩
    · rcases chunkLoop_mem_strip text cs ov fuel 0 [] raw hraw c
        (List.mem_of_mem_filter hc) with h0 | ⟨d, rfl⟩
      · simp at h0
      · exact pyStrip_idem d
    · intro he
      rw [he] at hne
      simp at hne
  · intro ht
    subst ht
    cases fuel with
    | zero => simp [chunkLoop] at hraw
    | succ k =>
      have hz : chunkLoop ([] : List Char) cs ov (k + 1) 0 [] = some [] := by
        simp only [chunkLoop]
        rw [if_neg (by simp)]
      rw [hz] at hraw
      obtain rfl : raw = [] := by simpa using hraw
      rfl

/-- Witness for C6: the chunker on a 60-character text returns that
text as its single chunk. -/
theorem C6_witness :
    (∀ c ∈ [List.replicate 60 'a'],
        pyStrip c = c ∧ c ≠ [] ∧ 50 < c.length) ∧
    (List.replicate 60 'a' = ([] : List Char) →
        [List.replicate 60 'a'] = []) :=
  C6_chunk_output 61 500 50 (List.replicate 60 'a')
    [List.replicate 60 'a'] (by decide)

/-! ## C10: batch insertion -/

/-- Closed form of the batch insertion loop: the returned ids are
consecutive draws of the uuid stream and the rows are the input chunks
in order, each stamped with the transaction timestamp. -/
theorem batchInsert_eq (gen : Nat → String) (docId : String) (t : Nat) :
    ∀ (ds : List ChunkData) (c : Nat),
      batchInsert gen docId t ds c =
        (expectedIds gen c ds.length, expectedRows gen docId ds c t) := by
  intro ds
  induction ds with
  | nil => intro c; rfl
  | cons d rest ih =>
    intro c
    simp only [batchInsert]
    rw [ih]
    simp [expectedIds, expectedRows]

/-- Closed form of batch_add_chunks: the returned ids are consecutive
draws of the uuid stream, the rows of the document are appended in
input order carrying the shared transaction timestamp, the clock
advances once at commit and the stream advances by the number of
chunks. -/
theorem batchAddChunks_eq (gen : Nat → String) (docId : String) :
    ∀ (ds : List ChunkData) (st : Store) (c : Nat),
      batchAddChunks gen docId ds st c =
        (expectedIds gen c ds.length,
         { rows := st.rows ++ expectedRows gen docId ds c st.nextTime,
           nextTime := st.nextTime + 1 },
         c + ds.length) := by
  intro ds st c
  unfold batchAddChunks
  rw [batchInsert_eq]

/-- Length of a stream segment. -/
theorem expectedIds_length (gen : Nat → String) :
    ∀ (n c : Nat), (expectedIds gen c n).length = n := by
  intro n
  induction n with
  | zero => intro c; rfl
  | succ m ih => intro c; simp [expectedIds, ih]

/-- Membership in a stream segment. -/
theorem mem_expectedIds (gen : Nat → String) :
    ∀ (n c : Nat) (x : String), x ∈ expectedIds gen c n →
      ∃ i, i < n ∧ x = gen (c + i) := by
  intro n
  induction n with
  | zero => intro c x hx; simp [expectedIds] at hx
  | succ m ih =>
    intro c x hx
    rw [expectedIds] at hx
    rcases List.mem_cons.mp hx with h | h
    · exact ⟨0, by omega, by simpa using h⟩
    · obtain ⟨i, hi, hxi⟩ := ih (c + 1) x h
      exact ⟨i + 1, by omega, by rw [hxi]; exact congrArg gen (by omega)⟩

/-- A segment of an injective stream has no duplicates. -/
theorem expectedIds_nodup (gen : Nat → String)
    (hinj : Function.Injective gen) :
    ∀ (n c : Nat), (expectedIds gen c n).Nodup := by
  intro n
  induction n with
  | zero => intro c; simp [expectedIds]
  | succ m ih =>
    intro c
    rw [expectedIds]
    refine List.nodup_cons.mpr ⟨?_, ih (c + 1)⟩
    intro hmem
    obtain ⟨i, _, hxi⟩ := mem_expectedIds gen m (c + 1) (gen c) hmem
    have := hinj hxi
    omega

/-- The i-th entry of a stream segment. -/
theorem expectedIds_getD (gen : Nat → String) :
    ∀ (n c i : Nat), i < n → (expectedIds gen c n).getD i "" = gen (c + i) := by
  intro n
  induction n with
  | zero => intro c i hi; omega
  | succ m ih =>
    intro c i hi
    cases i with
    | zero => simp [expectedIds]
    | succ j =>
      rw [expectedIds]
      have := ih (c + 1) j (by omega)
      simpa [Nat.add_assoc, Nat.add_comm 1 j] using this

/-- Length of the expected rows. -/
theorem expectedRows_length (gen : Nat → String) (docId : String) :
    ∀ (ds : List ChunkData) (c t : Nat),
      (expectedRows gen docId ds c t).length = ds.length := by
  intro ds
  induction ds with
  | nil => intro c t; rfl
  | cons d rest ih => intro c t; simp [expectedRows, ih]

/-- Every expected row belongs to the inserted document. -/
theorem expectedRows_document_id (gen : Nat → String) (docId : String) :
    ∀ (ds : List ChunkData) (c t : Nat),
      ∀ r ∈ expectedRows gen docId ds c t, r.document_id = docId := by
  intro ds
  induction ds with
  | nil => intro c t r hr; simp [expectedRows] at hr
  | cons d rest ih =>
    intro c t r hr
    rw [expectedRows] at hr
    rcases List.mem_cons.mp hr with h | h
    · rw [h]
    · exact ih (c + 1) t r h

/-- The i-th expected row matches the i-th input chunk. -/
theorem expectedRows_index (gen : Nat → String) (docId : String) :
    ∀ (ds : List ChunkData) (c t i : Nat), i < ds.length →
      ∃ row ∈ expectedRows gen docId ds c t,
        row.id = gen (c + i) ∧
        ds.getD i { content := [], embedding := [], metadata := [] } =
          { content := row.content, embedding := row.embedding,
            metadata := row.metadata } ∧
        row.document_id = docId ∧ row.created_at = t := by
  intro ds
  induction ds with
  | nil => intro c t i hi; simp at hi
  | cons d rest ih =>
    intro c t i hi
    cases i with
    | zero =>
      refine ⟨_, List.mem_cons_self _ _, by simp, by simp, rfl, rfl⟩
    | succ j =>
      obtain ⟨row, hmem, hid, hdata, hdoc, hct⟩ :=
        ih (c + 1) t j (by simpa using hi)
      refine ⟨row, List.mem_cons_of_mem _ hmem, ?_, by simpa using hdata,
        hdoc, hct⟩
      rw [hid]
      exact congrArg gen (by omega)

/-- The identifier stream fixture is injective. -/
theorem uuidStream_injective : Function.Injective uuidStream := by
  intro a b h
  have h2 : List.replicate a 'x' = List.replicate b 'x' :=
    congrArg String.data h
  have h3 := congrArg List.length h2
  simpa using h3

/-- C10: batch_add_chunks returns exactly one id per input chunk; the
returned ids are freshly drawn from the uuid stream and pairwise
distinct when the stream is injective; the store gains exactly the
input chunks, in input order, and the i-th returned id is the id under
which the i-th input chunk was inserted. -/
theorem C10_batch_add_chunks (gen : Nat → String) (docId : String)
    (ds : List ChunkData) (st : Store) (c : Nat)
    (hinj : Function.Injective gen) :
    (batchAddChunks gen docId ds st c).1.length = ds.length ∧
    (batchAddChunks gen docId ds st c).1.Nodup ∧
    (batchAddChunks gen docId ds st c).2.1.rows =
      st.rows ++ expectedRows gen docId ds c st.nextTime ∧
    ∀ i, i < ds.length →
      ∃ row ∈ (batchAddChunks gen docId ds st c).2.1.rows,
        row.id = (batchAddChunks gen docId ds st c).1.getD i "" ∧
        ds.getD i { content := [], embedding := [], metadata := [] } =
          { content := row.content, embedding := row.embedding,
            metadata := row.metadata } ∧
        row.document_id = docId := by
  rw [batchAddChunks_eq]
  refine ⟨expectedIds_length gen ds.length c,
    expectedIds_nodup gen hinj ds.length c, rfl, ?_⟩
  intro i hi
  obtain ⟨row, hmem, hid, hdata, hdoc, _⟩ :=
    expectedRows_index gen docId ds c st.nextTime i hi
  refine ⟨row, List.mem_append_right _ hmem, ?_, hdata, hdoc⟩
  rw [hid, expectedIds_getD gen ds.length c i hi]

/-- Witness for C10 at a concrete batch of one chunk. -/
theorem C10_witness :
    (batchAddChunks uuidStream "doc"
        [{ content := List.replicate 60 'a', embedding := [1],
           metadata := [] }] emptyStore 0).1.length = 1 :=
  (C10_batch_add_chunks uuidStream "doc"
    [{ content := List.replicate 60 'a', embedding := [1], metadata := [] }]
    emptyStore 0 uuidStream_injective).1

/-! ## C8: ingest then get -/

/-- The chunk data list has one entry per chunk. -/
theorem ingestChunksData_length (embed : List Char → List ℚ)
    (docId : String) (metadata : List (String × MetaVal)) :
    ∀ (chunks : List (List Char)) (i : Nat),
      (ingestChunksData embed docId metadata chunks i).length =
        chunks.length := by
  intro chunks
  induction chunks with
  | nil => intro i; rfl
  | cons ch rest ih => intro i; simp [ingestChunksData, ih]

/-- Viewing the rows created for an ingested document gives exactly the
expected views of its chunks. -/
theorem expectedRows_ingest_map_view (embed : List Char → List ℚ)
    (gen : Nat → String) (docId : String)
    (metadata : List (String × MetaVal)) :
    ∀ (chunks : List (List Char)) (i c t : Nat),
      (expectedRows gen docId
          (ingestChunksData embed docId metadata chunks i) c t).map
        rowView = expectedViews gen docId metadata chunks i c t := by
  intro chunks
  induction chunks with
  | nil => intro i c t; rfl
  | cons ch rest ih =>
    intro i c t
    simp only [ingestChunksData, expectedRows, expectedViews,
      List.map_cons, ih, rowView]

/-- The contents of the expected views are the chunks themselves. -/
theorem expectedViews_map_content (gen : Nat → String) (docId : String)
    (metadata : List (String × MetaVal)) :
    ∀ (chunks : List (List Char)) (i c t : Nat),
      (expectedViews gen docId metadata chunks i c t).map
          DocChunkView.content = chunks := by
  intro chunks
  induction chunks with
  | nil => intro i c t; rfl
  | cons ch rest ih =>
    intro i c t
    simp only [expectedViews, List.map_cons, ih]

/-- The rows get_document sees for a freshly ingested document:
exactly the rows of its batch, in table order. -/
theorem getDocumentRows_ingest (embed : List Char → List ℚ)
    (gen : Nat → String) (st : Store) (c : Nat) (content : List Char)
    (metadata : List (String × MetaVal))
    (hfresh : ∀ row ∈ st.rows, row.document_id ≠ gen c) :
    getDocumentRows (ingestDocument embed gen st c content metadata).2.1
        (ingestDocument embed gen st c content metadata).1 =
      expectedRows gen (gen c)
        (ingestChunksData embed (gen c) metadata (chunkText content) 0)
        (c + 1) st.nextTime := by
  unfold ingestDocument
  dsimp only
  rw [batchAddChunks_eq]
  unfold getDocumentRows
  dsimp only
  rw [List.filter_append]
  have hold : st.rows.filter (fun r => r.document_id == gen c) = [] :=
    List.filter_eq_nil_iff.mpr (fun r hr => by simpa using hfresh r hr)
  have hnew : (expectedRows gen (gen c)
      (ingestChunksData embed (gen c) metadata (chunkText content) 0)
      (c + 1) st.nextTime).filter (fun r => r.document_id == gen c) =
      expectedRows gen (gen c)
        (ingestChunksData embed (gen c) metadata (chunkText content) 0)
        (c + 1) st.nextTime :=
    List.filter_eq_self.mpr (fun r hr => by
      simpa using expectedRows_document_id gen (gen c) _ (c + 1)
        st.nextTime r hr)
  rw [hold, hnew, List.nil_append]

/-- The chunker splits the 600-character document into a 500-character
window and a 150-character remainder. -/
theorem chunkText_longDoc :
    chunkText longDoc =
      [List.replicate 500 'a', List.replicate 150 'a'] := by decide

/-- The rows stored for longDoc. -/
theorem getDocumentRows_longDoc :
    getDocumentRows longDocStore longDocId = [longDocRow1, longDocRow2] := by
  unfold longDocStore longDocId
  rw [getDocumentRows_ingest constEmbedL uuidStream emptyStore 0 longDoc []
    (by simp [emptyStore])]
  rw [chunkText_longDoc]
  simp [ingestChunksData, expectedRows, constEmbedL, longDocRow1,
    longDocRow2, emptyStore]

/-- C8 counterexample: the two chunks of the 600-character document are
inserted in one transaction and share one created_at, so the reversed
sequence is also an admissible answer of get_document_chunks (it is
sorted by creation time and a permutation of the rows of the
document); it differs from the chunker-order sequence, refuting the
claim that the chunks come back in the order the chunker produced
them. -/
theorem C8_counterexample :
    getDocumentChunksAdmissible longDocStore longDocId
        [rowView longDocRow2, rowView longDocRow1] ∧
      [rowView longDocRow2, rowView longDocRow1] ≠
        expectedViews uuidStream longDocId [] (chunkText longDoc) 0 1 0 := by
  constructor
  · refine ⟨[longDocRow2, longDocRow1], ?_, ?_, rfl⟩
    · rw [getDocumentRows_longDoc]
      exact List.Perm.swap longDocRow1 longDocRow2 []
    · simp [List.sorted_cons, longDocRow1, longDocRow2]
  · rw [chunkText_longDoc]
    simp only [expectedViews]
    intro h
    injection h with h1 h2
    have h3 := congrArg (fun v => v.content.length) h1
    simp [rowView, longDocRow2] at h3

/-- C8 amended: after ingesting a document under a fresh id, every
admissible result of get_document consists of exactly the chunks the
chunker produced — same ids, contents, merged metadata and the shared
transaction timestamp — as a permutation: all rows of the batch carry
one created_at, so ordering by creation time does not determine their
relative order. -/
theorem C8_ingest_then_get (embed : List Char → List ℚ)
    (gen : Nat → String) (st : Store) (c : Nat) (content : List Char)
    (metadata : List (String × MetaVal))
    (hfresh : ∀ row ∈ st.rows, row.document_id ≠ gen c)
    (res : List DocChunkView)
    (hres : getDocumentChunksAdmissible
      (ingestDocument embed gen st c content metadata).2.1
      (ingestDocument embed gen st c content metadata).1 res) :
    List.Perm res
      (expectedViews gen (gen c) metadata (chunkText content) 0 (c + 1)
        st.nextTime) ∧
    List.Perm (res.map DocChunkView.content) (chunkText content) := by
  obtain ⟨rows, hperm, hsort, rfl⟩ := hres
  rw [getDocumentRows_ingest embed gen st c content metadata hfresh]
    at hperm
  have h1 : List.Perm (rows.map rowView)
      (expectedViews gen (gen c) metadata (chunkText content) 0 (c + 1)
        st.nextTime) := by
    have h2 := hperm.map rowView
    rwa [expectedRows_ingest_map_view embed gen (gen c) metadata
      (chunkText content) 0 (c + 1) st.nextTime] at h2
  refine ⟨h1, ?_⟩
  have h3 := h1.map DocChunkView.content
  rwa [expectedViews_map_content gen (gen c) metadata (chunkText content)
    0 (c + 1) st.nextTime] at h3

/-- The chunker returns the 60-character document as its single
chunk. -/
theorem chunkText_smallDoc :
    chunkText smallDoc = [List.replicate 60 'a'] := by decide

/-- The single row stored for smallDoc. -/
theorem getDocumentRows_smallDoc :
    getDocumentRows smallDocStore smallDocId = [smallDocRow] := by
  unfold smallDocStore smallDocId
  rw [getDocumentRows_ingest constEmbedL uuidStream emptyStore 0 smallDoc []
    (by simp [emptyStore])]
  rw [chunkText_smallDoc]
  simp [ingestChunksData, expectedRows, constEmbedL, smallDocRow,
    emptyStore]

/-- Witness for C8 amended: a concrete admissible result for the
single-chunk document. -/
theorem C8_witness :
    List.Perm [rowView smallDocRow]
      (expectedViews uuidStream (uuidStream 0) [] (chunkText smallDoc)
        0 1 0) ∧
    List.Perm ([rowView smallDocRow].map DocChunkView.content)
      (chunkText smallDoc) :=
  C8_ingest_then_get constEmbedL uuidStream emptyStore 0 smallDoc []
    (by simp [emptyStore]) [rowView smallDocRow]
    ⟨[smallDocRow],
     by
       show List.Perm [smallDocRow] (getDocumentRows smallDocStore smallDocId)
       rw [getDocumentRows_smallDoc],
     List.sorted_singleton _, rfl⟩

/-! ## C7: idempotent seeding -/

/-- Rows created by ingest_document: the previous rows followed by the
expected rows of the chunks of the new document. -/
theorem ingestDocument_rows (embed : List Char → List ℚ)
    (gen : Nat → String) (st : Store) (c : Nat) (content : List Char)
    (metadata : List (String × MetaVal)) :
    (ingestDocument embed gen st c content metadata).2.1.rows =
      st.rows ++ expectedRows gen (gen c)
        (ingestChunksData embed (gen c) metadata (chunkText content) 0)
        (c + 1) st.nextTime := by
  unfold ingestDocument
  dsimp only
  rw [batchAddChunks_eq]

/-- Seeding never removes rows. -/
theorem seedCorpus_rows_le (embed : List Char → List ℚ)
    (gen : Nat → String) :
    ∀ (docs : List SeedDoc) (st : Store) (c : Nat),
      st.rows.length ≤ (seedCorpus embed gen docs st c).2.1.rows.length := by
  intro docs
  induction docs with
  | nil => intro st c; simp [seedCorpus]
  | cons d rest ih =>
    intro st c
    simp only [seedCorpus]
    have h1 : st.rows.length ≤
        (ingestDocument embed gen st c d.content
          (seedDocMeta d)).2.1.rows.length := by
      rw [ingestDocument_rows]
      simp
    exact le_trans h1 (ih _ _)

/-- Seeding a corpus containing a chunk-producing document leaves a
non-empty store. -/
theorem seedCorpus_pos (embed : List Char → List ℚ) (gen : Nat → String) :
    ∀ (docs : List SeedDoc) (st : Store) (c : Nat),
      (∃ d ∈ docs, chunkText d.content ≠ []) →
      0 < (seedCorpus embed gen docs st c).2.1.rows.length := by
  intro docs
  induction docs with
  | nil => intro st c h; simp at h
  | cons d rest ih =>
    intro st c h
    simp only [seedCorpus]
    rcases h with ⟨x, hx, hne⟩
    rcases List.mem_cons.mp hx with rfl | hxr
    · have h1 : 0 < (ingestDocument embed gen st c x.content
          (seedDocMeta x)).2.1.rows.length := by
        rw [ingestDocument_rows]
        have hlen := expectedRows_length gen (gen c)
          (ingestChunksData embed (gen c) (seedDocMeta x)
            (chunkText x.content) 0) (c + 1) st.nextTime
        have hcl := ingestChunksData_length embed (gen c) (seedDocMeta x)
          (chunkText x.content) 0
        have hpos : 0 < (chunkText x.content).length :=
          List.length_pos.mpr hne
        rw [List.length_append]
        omega
      exact lt_of_lt_of_le h1 (seedCorpus_rows_le embed gen rest _ _)
    · exact ih _ _ ⟨x, hxr, hne⟩

/-- C7: once a first seed_if_empty call has filled the store from a
corpus with at least one chunk-producing document, the chunk count is
non-zero and a second seed_if_empty call ingests nothing: it returns
zero and leaves the store and the uuid stream untouched. -/
theorem C7_seed_idempotent (embed : List Char → List ℚ)
    (gen : Nat → String) (docs : List SeedDoc) (st : Store) (c : Nat)
    (h0 : chunkCount st = 0)
    (hsome : ∃ d ∈ docs, chunkText d.content ≠ []) :
    chunkCount (seedCorpusIfEmpty embed gen docs st c).2.1 ≠ 0 ∧
    seedCorpusIfEmpty embed gen docs
        (seedCorpusIfEmpty embed gen docs st c).2.1
        (seedCorpusIfEmpty embed gen docs st c).2.2 =
      (0, (seedCorpusIfEmpty embed gen docs st c).2.1,
        (seedCorpusIfEmpty embed gen docs st c).2.2) := by
  have hfirst : seedCorpusIfEmpty embed gen docs st c =
      seedCorpus embed gen docs st c := by
    unfold seedCorpusIfEmpty
    rw [if_pos (by simp [h0])]
  have hpos := seedCorpus_pos embed gen docs st c hsome
  rw [hfirst]
  refine ⟨by unfold chunkCount; omega, ?_⟩
  unfold seedCorpusIfEmpty
  rw [if_neg (by simp only [chunkCount, beq_iff_eq]; omega)]

/-- A seed document producing one chunk. -/
def sampleSeedDoc : SeedDoc :=
  { title := "title", content := List.replicate 60 'a', metadata := [] }

/-- Witness for C7 at a concrete one-document corpus over the empty
store. -/
theorem C7_witness :
    chunkCount (seedCorpusIfEmpty constEmbedL uuidStream [sampleSeedDoc]
        emptyStore 0).2.1 ≠ 0 ∧
    seedCorpusIfEmpty constEmbedL uuidStream [sampleSeedDoc]
        (seedCorpusIfEmpty constEmbedL uuidStream [sampleSeedDoc]
          emptyStore 0).2.1
        (seedCorpusIfEmpty constEmbedL uuidStream [sampleSeedDoc]
          emptyStore 0).2.2 =
      (0, (seedCorpusIfEmpty constEmbedL uuidStream [sampleSeedDoc]
          emptyStore 0).2.1,
        (seedCorpusIfEmpty constEmbedL uuidStream [sampleSeedDoc]
          emptyStore 0).2.2) :=
  C7_seed_idempotent constEmbedL uuidStream [sampleSeedDoc] emptyStore 0
    rfl ⟨sampleSeedDoc, List.mem_singleton.mpr rfl, by decide⟩

/-! ## C9: source formatting -/

/-- Evaluation of retrieve on the store holding the 201-character row
under the constant distance operator. -/
theorem retrieve_longStore :
    retrieve constDist constEmbed longStore "q" 5 =
      [{ id := "cid2", document_id := "doc2",
         content := List.replicate 201 'a', metadata := [],
         created_at := 0,
         similarity := 1 - constDist longRow.embedding (constEmbed "q") }] := by
  have h0 : retrieve constDist constEmbed longStore "q" 5 =
      List.filter (fun r => decide ((1 : ℚ) / 10 < r.similarity))
        [{ id := "cid2", document_id := "doc2",
           content := List.replicate 201 'a', metadata := [],
           created_at := 0,
           similarity := 1 - constDist longRow.embedding (constEmbed "q") }] := rfl
  have h1 : ((1 : ℚ) / 10 <
      1 - constDist longRow.embedding (constEmbed "q")) := by
    norm_num [constDist]
  rw [h0, List.filter_cons, if_pos (by simpa using h1)]
  simp

/-- The sources produced by a query against the 201-character row. -/
theorem ragQuery_longStore_sources :
    (ragQuery constDist constEmbed constGen longStore "q" 5).sources =
      [{ content :=
           if 200 < (List.replicate 201 'a').length then
             (List.replicate 201 'a').take 200 ++ ('.' :: '.' :: '.' :: [])
           else List.replicate 201 'a',
         metadata := [],
         similarity :=
           round3 (1 - constDist longRow.embedding (constEmbed "q")) }] := by
  unfold ragQuery
  dsimp only
  rw [retrieve_longStore]
  simp only [List.isEmpty_cons, Bool.false_eq_true, if_false,
    List.map_cons, List.map_nil]

/-- C9 counterexample: a retrieved chunk of 201 characters yields a
source whose content is the 200-character truncation followed by an
ellipsis, not the bare truncation to 200 characters the claim
states. -/
theorem C9_counterexample :
    (ragQuery constDist constEmbed constGen longStore "q" 5).sources.map
        Source.content ≠ [(List.replicate 201 'a').take 200] := by
  rw [ragQuery_longStore_sources]
  simp only [List.map_cons, List.map_nil]
  intro h
  have h2 : (if 200 < (List.replicate 201 'a').length then
        (List.replicate 201 'a').take 200 ++ ('.' :: '.' :: '.' :: [])
      else List.replicate 201 'a') =
      (List.replicate 201 'a').take 200 := by
    simpa using congrArg (fun l : List (List Char) => l.headD []) h
  rw [if_pos (by rw [List.length_replicate]; norm_num)] at h2
  have h3 := congrArg List.length h2
  rw [List.length_append, List.length_take, List.length_replicate] at h3
  norm_num at h3

/-- C9 amended: for every query whose retrieval is non-empty, each
source comes from a retrieved chunk, its content equals the chunk
content when that is at most 200 characters and otherwise the first
200 characters followed by an ellipsis, its similarity is the chunk
similarity rounded to three decimal places, and its metadata is the
chunk metadata. -/
theorem C9_query_sources (dist : List ℚ → List ℚ → ℚ)
    (embed : String → List ℚ)
    (generate : String → List SearchResult → String) (st : Store)
    (q : String) (topK : Nat) :
    ∀ s ∈ (ragQuery dist embed generate st q topK).sources,
      ∃ ch ∈ retrieve dist embed st q topK,
        s.content = (if ch.content.length ≤ 200 then ch.content
          else ch.content.take 200 ++ ('.' :: '.' :: '.' :: [])) ∧
        s.similarity = round3 ch.similarity ∧
        s.metadata = ch.metadata := by
  intro s hs
  unfold ragQuery at hs
  dsimp only at hs
  by_cases hemp : (retrieve dist embed st q topK).isEmpty
  · rw [if_pos hemp] at hs
    simp at hs
  · rw [if_neg hemp] at hs
    dsimp only at hs
    rw [List.mem_map] at hs
    obtain ⟨ch, hch, rfl⟩ := hs
    refine ⟨ch, hch, ?_, rfl, rfl⟩
    dsimp only
    by_cases hlen : ch.content.length ≤ 200
    · rw [if_pos hlen, if_neg (by omega)]
    · rw [if_neg hlen, if_pos (by omega)]

/-- Witness for C9 amended, at the store holding the 201-character
row. -/
theorem C9_witness :
    ∃ ch ∈ retrieve constDist constEmbed longStore "q" 5,
      ({ content :=
           if 200 < (List.replicate 201 'a').length then
             (List.replicate 201 'a').take 200 ++ ('.' :: '.' :: '.' :: [])
           else List.replicate 201 'a',
         metadata := [],
         similarity :=
           round3 (1 - constDist longRow.embedding (constEmbed "q")) } :
          Source).content =
        (if ch.content.length ≤ 200 then ch.content
         else ch.content.take 200 ++ ('.' :: '.' :: '.' :: [])) ∧
      ({ content :=
           if 200 < (List.replicate 201 'a').length then
             (List.replicate 201 'a').take 200 ++ ('.' :: '.' :: '.' :: [])
           else List.replicate 201 'a',
         metadata := [],
         similarity :=
           round3 (1 - constDist longRow.embedding (constEmbed "q")) } :
          Source).similarity = round3 ch.similarity ∧
      ({ content :=
           if 200 < (List.replicate 201 'a').length then
             (List.replicate 201 'a').take 200 ++ ('.' :: '.' :: '.' :: [])
           else List.replicate 201 'a',
         metadata := [],
         similarity :=
           round3 (1 - constDist longRow.embedding (constEmbed "q")) } :
          Source).metadata = ch.metadata :=
  C9_query_sources constDist constEmbed constGen longStore "q" 5
    _ (by rw [ragQuery_longStore_sources]; exact List.mem_singleton.mpr rfl)

end RagSpec
